import Mathlib

set_option maxRecDepth 4000

/-!
Verification development for the velaux RBAC engine
(`pkg/server/domain/service/rbac.go`).

Go strings are embedded as Lean `String`s viewed as their character lists
(`String.data`); the Go standard-library string primitives the code uses are
implemented below over `List Char`.  All strings occurring in the RBAC code
are ASCII, for which the rune-based view coincides with Go's byte-based
indexing.
-/

/-- Go `strings.Split(s, sep)` for a one-character separator, over char
lists.  `goSplitChar sep [] = [[]]`, matching Go's `Split("", sep) = [""]`. -/
def goSplitChar (sep : Char) : List Char → List (List Char)
  | [] => [[]]
  | c :: t =>
    if c == sep then [] :: goSplitChar sep t
    else
      match goSplitChar sep t with
      | [] => [[c]]
      | h :: r => (c :: h) :: r

/-- `listStarts pat s` holds when `pat` is an initial run of `s`. -/
def listStarts : List Char → List Char → Bool
  | [], _ => true
  | _ :: _, [] => false
  | p :: ps, c :: cs => p == c && listStarts ps cs

/-- Go `strings.Index(s, sub)`: `some i` is Go's result `i`, `none` is `-1`. -/
def goIndexAux (pat : List Char) : List Char → Option Nat
  | [] => if listStarts pat [] then some 0 else none
  | c :: t =>
    if listStarts pat (c :: t) then some 0
    else (goIndexAux pat t).map (· + 1)

/-- Go `strings.Replace(s, old, new, 1)`: replace the first occurrence. -/
def goReplaceOnce (s old new : String) : String :=
  match goIndexAux old.data s.data with
  | none => s
  | some i => String.mk (s.data.take i ++ new.data ++ s.data.drop (i + old.data.length))

/-- Go `strings.TrimSuffix(s, "/")`. -/
def goTrimSufSlash (s : String) : String :=
  if s.data.getLast? == some '/' then String.mk s.data.dropLast else s

/-- Go `strings.TrimPrefix(s, "/")`. -/
def goTrimPrefSlash (s : String) : String :=
  match s.data with
  | '/' :: t => String.mk t
  | _ => s

/-- Go `resource[strings.LastIndex(resource, "/")+1:]`: everything after the
last slash (the whole string when there is none). -/
def goAfterLastSlash (s : String) : String :=
  String.mk ((goSplitChar '/' s.data).getLastD [])

/-- Go `strings.EqualFold`.  `Char.toLower` performs the ASCII fold, which
agrees with Go's simple Unicode fold on every comparison the RBAC code makes
(the right-hand sides are the ASCII words `"deny"` and `"allow"`, whose
letters have no non-ASCII fold partners). -/
def goEqualFold (s t : String) : Bool :=
  s.data.map Char.toLower == t.data.map Char.toLower

/-- kubevela `utils.StringsContain`. -/
def goStringsContain (items : List String) (source : String) : Bool :=
  items.any (fun item => item == source)

/-- Lexicographic order on char lists by code point (for UTF-8 encoded
strings this equals Go's byte order). -/
def leChars : List Char → List Char → Bool
  | [], _ => true
  | _ :: _, [] => false
  | a :: as, b :: bs =>
    if a.toNat < b.toNat then true
    else if b.toNat < a.toNat then false
    else leChars as bs

/-- Go string comparison `a <= b`. -/
def strLe (a b : String) : Bool := leChars a.data b.data

/-- Insertion step for `goSortStrings`. -/
def insertStr (x : String) : List String → List String
  | [] => [x]
  | y :: r => if strLe x y then x :: y :: r else y :: insertStr x r

/-- Go `sort.Strings` (ascending lexicographic; UTF-8 byte order and
code-point order agree). -/
def goSortStrings : List String → List String
  | [] => []
  | x :: r => insertStr x (goSortStrings r)

/-- kubevela `utils.EqualSlice`: equal length and equal after sorting. -/
def goEqualSlice (a b : List String) : Bool :=
  if a.length != b.length then false
  else goSortStrings a == goSortStrings b

/-- kubevela `utils.SliceIncludeSlice`: `a` contains every element of `b`
(with the `EqualSlice` fast path of the source). -/
def goSliceIncludeSlice (a b : List String) : Bool :=
  if goEqualSlice a b then true
  else b.all (fun s => goStringsContain a s)

/-- The linked `ResourceName` chain of rbac.go; `nil` is Go's nil pointer,
and a node with empty `typ` is the trailing sentinel. -/
inductive ResourceName where
  | nil : ResourceName
  | node (typ value : String) (next : ResourceName)
  deriving DecidableEq, Repr

/-- One token of `ParseResourceName`: split on `:`; two parts give
(type, value), one part gives (type, `*`), anything else leaves the zero
value (empty type and value), exactly as the Go assignments do. -/
def parseToken (rn : List Char) : String × String :=
  match goSplitChar ':' rn with
  | [t, v] => (String.mk t, String.mk v)
  | [t] => (String.mk t, "*")
  | _ => ("", "")

/-- Build the chain: one node per token, terminated by the empty sentinel
node the Go loop always leaves behind. -/
def buildChain : List (String × String) → ResourceName
  | [] => .node "" "" .nil
  | (t, v) :: rest => .node t v (buildChain rest)

/-- Go `ParseResourceName`. -/
def ParseResourceName (resource : String) : ResourceName :=
  buildChain ((goSplitChar '/' resource.data).map parseToken)

/-- Whether the chain still has a real (non-sentinel) head segment. -/
def targetHasReal : ResourceName → Bool
  | .nil => false
  | .node t _ _ => t != ""

/-- Go `(*ResourceName).Match`: `r` is the policy pattern, the argument is
the request resource. -/
def ResourceName.Match : ResourceName → ResourceName → Bool
  | .nil, target => !targetHasReal target
  | .node t v next, target =>
    if t == "" then !targetHasReal target
    else if t == "*" then true
    else
      match target with
      | .nil => false
      | .node tt tv tnext =>
        if tt == "" then false
        else if t != tt then false
        else if v != tv && v != "*" then false
        else ResourceName.Match next tnext

/-- The string built by Go `(*ResourceName).String` before the final
`TrimSuffix`: `type:value/` for each real segment. -/
def rnRender : ResourceName → String
  | .nil => ""
  | .node t v next => if t == "" then "" else t ++ ":" ++ v ++ "/" ++ rnRender next

/-- Go `(*ResourceName).String`. -/
def rnString (r : ResourceName) : String := goTrimSufSlash (rnRender r)

/-- The ordered list of real (non-sentinel) segments of a chain. -/
def realSegs : ResourceName → List (String × String)
  | .nil => []
  | .node t v next => if t == "" then [] else (t, v) :: realSegs next

/-- `model.Permission` (the fields the RBAC engine reads). -/
structure Permission where
  Name : String
  Alias : String
  Project : String
  Resources : List String
  Actions : List String
  Effect : String
  deriving DecidableEq, Repr

/-- `RequestResourceAction`: the per-request resource chain and actions. -/
structure RequestResourceAction where
  resource : ResourceName
  actions : List String
  deriving Repr

/-- Go `RequestResourceAction.match` (unexported): the policy action set must
include the requested actions or contain `*`, and some resource pattern of
the policy must match the request resource. -/
def RequestResourceAction.rmatch (r : RequestResourceAction) (policy : Permission) : Bool :=
  if !goSliceIncludeSlice policy.Actions r.actions && !goStringsContain policy.Actions "*" then
    false
  else
    policy.Resources.any (fun resource => (ParseResourceName resource).Match r.resource)

/-- The first loop of Go `RequestResourceAction.Match`: scan for a matching
policy whose effect folds to `deny`. -/
def denyPass (r : RequestResourceAction) : List Permission → Bool
  | [] => false
  | policy :: rest =>
    if goEqualFold policy.Effect "deny" && r.rmatch policy then true
    else denyPass r rest

/-- The second loop of Go `RequestResourceAction.Match`: scan for a matching
policy whose effect folds to `allow` or is empty. -/
def allowPass (r : RequestResourceAction) : List Permission → Bool
  | [] => false
  | policy :: rest =>
    if (goEqualFold policy.Effect "allow" || policy.Effect == "") && r.rmatch policy then true
    else allowPass r rest

/-- Go `RequestResourceAction.Match`: the deny loop runs first and its hit
returns false; otherwise the allow loop decides; default is false. -/
def RequestResourceAction.Match (r : RequestResourceAction) (policies : List Permission) : Bool :=
  if denyPass r policies then false else allowPass r policies

mutual

/-- Go `resourceMetadata`: optional path-parameter name and sub-resources. -/
inductive ResourceMeta where
  | mk (pathName : String) (subs : MetaList)

/-- A Go `map[string]resourceMetadata`, fixed in source declaration order
(the keys produced by the registry are pairwise distinct, so iterating the
association list visits exactly the map's entries). -/
inductive MetaList where
  | nil : MetaList
  | cons (key : String) (m : ResourceMeta) (rest : MetaList)

end

def ResourceMeta.pathName : ResourceMeta → String
  | .mk p _ => p

def ResourceMeta.subs : ResourceMeta → MetaList
  | .mk _ s => s

/-- Go map indexing `sources[key]`. -/
def MetaList.lookup : MetaList → String → Option ResourceMeta
  | .nil, _ => none
  | .cons k m rest, key => if k == key then some m else rest.lookup key

/-- Go `ResourceMaps` of rbac.go, in source declaration order. -/
def ResourceMaps : MetaList :=
  .cons "project" (.mk "projectName" (
    .cons "application" (.mk "appName" (
      .cons "component" (.mk "compName" (
        .cons "trait" (.mk "traitType" .nil) .nil))
      (.cons "workflow" (.mk "workflowName" (
        .cons "record" (.mk "record" .nil) .nil))
      (.cons "policy" (.mk "policyName" .nil)
      (.cons "revision" (.mk "revision" .nil)
      (.cons "envBinding" (.mk "envName" .nil)
      (.cons "trigger" (.mk "" .nil) .nil)))))))
    (.cons "environment" (.mk "envName" .nil)
    (.cons "workflow" (.mk "workflowName" .nil)
    (.cons "role" (.mk "roleName" .nil)
    (.cons "permission" (.mk "" .nil)
    (.cons "projectUser" (.mk "userName" .nil)
    (.cons "applicationTemplate" (.mk "" .nil)
    (.cons "config" (.mk "configName" .nil)
    (.cons "provider" (.mk "" .nil)
    (.cons "pipeline" (.mk "pipelineName" (
      .cons "context" (.mk "contextName" .nil)
      (.cons "pipelineRun" (.mk "pipelineRunName" .nil) .nil)))
    .nil)))))))))))
  (.cons "cluster" (.mk "clusterName" (
    .cons "namespace" (.mk "" .nil) .nil))
  (.cons "addon" (.mk "addonName" .nil)
  (.cons "addonRegistry" (.mk "addonRegName" .nil)
  (.cons "target" (.mk "targetName" .nil)
  (.cons "user" (.mk "userName" .nil)
  (.cons "role" (.mk "" .nil)
  (.cons "permission" (.mk "permissionName" .nil)
  (.cons "systemSetting" (.mk "" .nil)
  (.cons "definition" (.mk "definitionName" .nil)
  (.cons "configType" (.mk "configType" (
    .cons "config" (.mk "name" .nil) .nil))
  (.cons "cloudshell" (.mk "" .nil)
  (.cons "config" (.mk "" .nil)
  (.cons "configTemplate" (.mk "" .nil)
  .nil)))))))))))))

mutual

/-- Go `convertSources`: the derived index from slash-joined resource-type
paths to fully qualified templates. -/
def convertSources : MetaList → List (String × String)
  | .nil => []
  | .cons k v rest => convertEntry k v ++ convertSources rest

/-- One iteration of the `for k, v := range sources` loop body. -/
def convertEntry (k : String) : ResourceMeta → List (String × String)
  | .mk pathName subs =>
    (match subs with
     | .nil => []
     | .cons _ _ _ =>
       (convertSources subs).filterMap (fun sv =>
         if sv.2 != "" then
           some ("/" ++ k ++ sv.1,
             if pathName != "" then "/" ++ k ++ ":\x7b" ++ pathName ++ "\x7d" ++ sv.2
             else "/" ++ k ++ ":*" ++ sv.2)
         else none))
    ++ [("/" ++ k ++ "/",
         if pathName != "" then "/" ++ k ++ ":\x7b" ++ pathName ++ "\x7d/"
         else "/" ++ k ++ ":*/")]

end

/-- Go package-level `existResourcePaths = convertSources(ResourceMaps)`. -/
def existResourcePaths : List (String × String) := convertSources ResourceMaps

/-- The `pre` computed by the `checkResourcePath` loop body once Go's
`index` into the template `erp` is known: slice up to and including
`/<lastResourceName>:`, strip that from `erp`, and extend up to the next
`/` when there is one. -/
def entryPreBody (lastResourceName erp : String) (index : Nat) : String :=
  let pre := String.mk (erp.data.take (index + lastResourceName.length + 2))
  let next := goReplaceOnce erp pre ""
  match goIndexAux ['/'] next.data with
  | some nameIndex => pre ++ String.mk (next.data.take nameIndex)
  | none => pre

/-- The `pre` computed for one index entry of the `checkResourcePath` loop
whose template `erp` contains `/<lastResourceName>:`; `none` when Go's
`index` is `-1`. -/
def entryPre (lastResourceName : String) (erp : String) : Option String :=
  match goIndexAux ("/" ++ lastResourceName ++ ":").data erp.data with
  | none => none
  | some index => some (entryPreBody lastResourceName erp index)

/-- The combined per-entry test of the loop: the key must contain
`/<resource>/` and the template must contain `/<lastResourceName>:`. -/
def entryScanPre (resource lastResourceName : String) (kv : String × String) : Option String :=
  if (goIndexAux ("/" ++ resource ++ "/").data kv.1.data).isSome then
    entryPre lastResourceName kv.2
  else none

/-- One iteration of the `checkResourcePath` loop: update `(path, exist)`. -/
def scanStep (resource lastResourceName : String) (acc : String × Nat) (kv : String × String) :
    String × Nat :=
  match entryScanPre resource lastResourceName kv with
  | none => acc
  | some pre => (pre, if pre != acc.1 then acc.2 + 1 else acc.2)

/-- The `(path, exist)` pair after the `checkResourcePath` loop over the
derived index. -/
def scanResourcePaths (resource : String) : String × Nat :=
  existResourcePaths.foldl (scanStep resource (goAfterLastSlash resource)) ("", 0)

/-- Go `checkResourcePath`. -/
def checkResourcePath (resource : String) : Except String String :=
  match ResourceMaps.lookup resource with
  | some sub =>
    if sub.pathName != "" then .ok (resource ++ ":\x7b" ++ sub.pathName ++ "\x7d")
    else .ok (resource ++ ":*")
  | none =>
    if (scanResourcePaths resource).2 = 1 then
      .ok (goTrimPrefSlash (goTrimSufSlash (scanResourcePaths resource).1))
    else if (scanResourcePaths resource).2 > 1 then
      .error ("the resource name " ++ resource ++ " is not unique")
    else .error ("there is no resource " ++ resource)

/-- Scan inside a `{...}` placeholder: the characters up to the first `}`
and the remainder after it; fails at end of input or at a newline (the
regex `(?U)\{.*\}` cannot cross a newline). -/
def findBrace : List Char → Option (List Char × List Char)
  | [] => none
  | c :: t =>
    if c == '}' then some ([], t)
    else if c == '\n' then none
    else (findBrace t).map (fun p => (c :: p.1, p.2))

/-- Fuel-driven scanner behind `findPlaceholders`; `findBrace` strictly
shrinks the remainder, so fuel equal to the input length never runs out. -/
def findPlaceholdersFuel : Nat → List Char → List (List Char)
  | 0, _ => []
  | _ + 1, [] => []
  | fuel + 1, c :: t =>
    if c == '{' then
      match findBrace t with
      | some p => ('{' :: (p.1 ++ ['}'])) :: findPlaceholdersFuel fuel p.2
      | none => findPlaceholdersFuel fuel t
    else findPlaceholdersFuel fuel t

/-- Go `reg.FindAllString(resource, -1)` for `reg = (?U)\{.*\}`: the
successive non-overlapping lazy `{...}` matches, as char lists. -/
def findPlaceholders (s : List Char) : List (List Char) :=
  findPlaceholdersFuel s.length s

/-- Go `RequestResourceAction.SetResourceWithName`: substitute each `{name}`
placeholder with `pathParameter name` (or `*` when that is empty) and parse
the result; returns the chain the method stores into `r.resource`. -/
def SetResourceWithName (resource : String) (pathParameter : String → String) : ResourceName :=
  let resultKey := findPlaceholders resource.data
  let substituted := resultKey.foldl (fun res sourcekey =>
    let key := String.mk (sourcekey.drop 1).dropLast
    let value := pathParameter key
    let value := if value == "" then "*" else value
    goReplaceOnce res (String.mk sourcekey) value) resource
  ParseResourceName substituted

/-- `model.Role` (the fields `GetUserPermissions` reads). -/
structure Role where
  Name : String
  Project : String
  Permissions : List String

/-- `model.ProjectUser` (the fields `GetUserPermissions` reads). -/
structure ProjectUser where
  ProjectName : String
  Username : String
  UserRoles : List String

/-- `model.User` (the fields `GetUserPermissions` reads). -/
structure User where
  Name : String
  UserRoles : List String

/-- The datastore reads `GetUserPermissions` performs, abstracted: platform
roles by name, the project-user record, project roles by name, and
permissions by name (the `p.Store.List`/`p.Store.Get` calls). -/
structure Store where
  listPlatformRoles : List String → Except String (List Role)
  getProjectUser : String → String → Except String ProjectUser
  listProjectRoles : String → List String → Except String (List Role)
  listPermissions : String → List String → Except String (List Permission)

/-- Go `rbacServiceImpl.listPermPolices`: empty name list short-circuits to
an empty result without a store read. -/
def listPermPolices (st : Store) (projectName : String) (permissionNames : List String) :
    Except String (List Permission) :=
  if permissionNames.length = 0 then .ok []
  else st.listPermissions projectName permissionNames

/-- The platform half of Go `GetUserPermissions` (rbac.go:456-482): collects
platform role permission names and loads those policies. -/
def guPlatformPhase (st : Store) (user : User) (withPlatform : Bool) :
    Except String (List String × List Permission) :=
  if withPlatform && user.UserRoles.length > 0 then
    match st.listPlatformRoles user.UserRoles with
    | .error e => .error e
    | .ok entities =>
      let permissionNames := entities.foldl (fun acc r => acc ++ r.Permissions) []
      match listPermPolices st "" permissionNames with
      | .error e => .error e
      | .ok perms => .ok (permissionNames, perms)
  else .ok ([], [])

/-- The project half of Go `GetUserPermissions` (rbac.go:483-511): loads the
project-user record, its roles' permission names (appended to the platform
names, as the source does), and the project policies. -/
def guProjectPhase (st : Store) (user : User) (projectName : String)
    (permissionNames : List String) (perms : List Permission) :
    Except String (List Permission) :=
  if projectName != "" then
    let roles :=
      match st.getProjectUser projectName user.Name with
      | .ok projectUser => projectUser.UserRoles
      | .error _ => []
    if roles.length > 0 then
      match st.listProjectRoles projectName roles with
      | .error e => .error e
      | .ok entities =>
        let permissionNames := permissionNames ++ entities.foldl (fun acc r => acc ++ r.Permissions) []
        match listPermPolices st projectName permissionNames with
        | .error e => .error e
        | .ok projectPerms => .ok (perms ++ projectPerms)
    else .ok perms
  else .ok perms

/-- The synthetic always-granted permission appended at rbac.go:513-518. -/
def cloudshellPermission : Permission :=
  { Name := "cloudshell", Alias := "", Project := "", Resources := ["cloudshell"],
    Actions := ["*"], Effect := "Allow" }

/-- Go `rbacServiceImpl.GetUserPermissions`. -/
def GetUserPermissions (st : Store) (user : User) (projectName : String) (withPlatform : Bool) :
    Except String (List Permission) :=
  match guPlatformPhase st user withPlatform with
  | .error e => .error e
  | .ok pair =>
    match guProjectPhase st user projectName pair.1 pair.2 with
    | .error e => .error e
    | .ok perms => .ok (perms ++ [cloudshellPermission])

/-- The update condition at rbac.go:894 inside
`SyncDefaultRoleAndUsersForProject`:
`!utils.EqualSlice(perm.Resources, permissionTemp.Resources) ||
 utils.EqualSlice(perm.Actions, permissionTemp.Actions)`;
the stored permission is rewritten exactly when this is true. -/
def syncUpdateCondition (permResources permActions tempResources tempActions : List String) : Bool :=
  !goEqualSlice permResources tempResources || goEqualSlice permActions tempActions


theorem rmatch_eq (r : RequestResourceAction) (p : Permission) :
    r.rmatch p = ((goSliceIncludeSlice p.Actions r.actions || goStringsContain p.Actions "*")
      && p.Resources.any (fun res => (ParseResourceName res).Match r.resource)) := by
  unfold RequestResourceAction.rmatch
  cases hA : goSliceIncludeSlice p.Actions r.actions <;>
    cases hB : goStringsContain p.Actions "*" <;> simp [hA, hB]

theorem denyPass_eq_any (r : RequestResourceAction) (l : List Permission) :
    denyPass r l = l.any (fun p => goEqualFold p.Effect "deny" && r.rmatch p) := by
  induction l with
  | nil => rfl
  | cons q rest ih =>
    simp only [denyPass, List.any_cons, ← ih]
    cases hq : (goEqualFold q.Effect "deny" && r.rmatch q) <;> simp [hq]

theorem allowPass_eq_any (r : RequestResourceAction) (l : List Permission) :
    allowPass r l = l.any (fun p =>
      (goEqualFold p.Effect "allow" || p.Effect == "") && r.rmatch p) := by
  induction l with
  | nil => rfl
  | cons q rest ih =>
    simp only [allowPass, List.any_cons, ← ih]
    cases hq : ((goEqualFold q.Effect "allow" || q.Effect == "") && r.rmatch q) <;> simp [hq]

/-- C1: for every policy list and request, if at least one policy with effect
Deny (case-insensitively) matches the request — its action set includes the
requested actions or contains `*`, and one of its resource patterns matches
the request resource — then `RequestResourceAction.Match` returns false,
regardless of any Allow policies and of policy order. -/
theorem claim_c1_deny_overrides (r : RequestResourceAction) (policies : List Permission)
    (p : Permission) (hmem : p ∈ policies)
    (heffect : goEqualFold p.Effect "deny" = true)
    (hactions : goSliceIncludeSlice p.Actions r.actions = true
      ∨ goStringsContain p.Actions "*" = true)
    (hresource : ∃ res ∈ p.Resources, (ParseResourceName res).Match r.resource = true) :
    r.Match policies = false := by
  have hAB : (goSliceIncludeSlice p.Actions r.actions || goStringsContain p.Actions "*") = true := by
    rcases hactions with h | h <;> simp [h]
  have hAny : p.Resources.any (fun res => (ParseResourceName res).Match r.resource) = true := by
    rcases hresource with ⟨res, hres1, hres2⟩
    exact List.any_eq_true.mpr ⟨res, hres1, hres2⟩
  have hm : r.rmatch p = true := by rw [rmatch_eq, hAB, hAny]; rfl
  have hd : denyPass r policies = true := by
    rw [denyPass_eq_any]
    exact List.any_eq_true.mpr ⟨p, hmem, by simp [heffect, hm]⟩
  simp [RequestResourceAction.Match, hd]

/-- A Deny policy on every cluster, as in the spec scenario. -/
def cexDenyCluster : Permission :=
  { Name := "deny-cluster", Alias := "", Project := "", Resources := ["cluster:*"],
    Actions := ["*"], Effect := "Deny" }

/-- An Allow-everything policy, as in the spec scenario. -/
def cexAllowAll : Permission :=
  { Name := "admin", Alias := "", Project := "", Resources := ["*"],
    Actions := ["*"], Effect := "Allow" }

/-- A request for cluster c1, as in the spec scenario. -/
def cexClusterRequest : RequestResourceAction :=
  { resource := ParseResourceName "cluster:c1", actions := ["detail"] }

/-- Witness for C1 at the spec scenario: Deny on `cluster:*` plus Allow on
`*` rejects a request on `cluster:c1`. -/
theorem claim_c1_witness : cexClusterRequest.Match [cexAllowAll, cexDenyCluster] = false :=
  claim_c1_deny_overrides cexClusterRequest [cexAllowAll, cexDenyCluster] cexDenyCluster
    (by decide) (by rfl) (Or.inr (by rfl)) ⟨"cluster:*", by decide, by rfl⟩

/-- C2: if no policy in the list matches the request — in particular if no
policy resource pattern matches the request resource — then
`RequestResourceAction.Match` returns false (fail-closed default). -/
theorem claim_c2_fail_closed (r : RequestResourceAction) (policies : List Permission) :
    ((∀ p ∈ policies, r.rmatch p = false) → r.Match policies = false)
    ∧ ((∀ p ∈ policies, ∀ res ∈ p.Resources,
        (ParseResourceName res).Match r.resource = false) → r.Match policies = false) := by
  have main : (∀ p ∈ policies, r.rmatch p = false) → r.Match policies = false := by
    intro h
    have hd : denyPass r policies = false := by
      rw [denyPass_eq_any, List.any_eq_false]
      intro p hp
      simp [h p hp]
    have ha : allowPass r policies = false := by
      rw [allowPass_eq_any, List.any_eq_false]
      intro p hp
      simp [h p hp]
    simp [RequestResourceAction.Match, hd, ha]
  refine ⟨main, fun h => main ?_⟩
  intro p hp
  rw [rmatch_eq]
  have hAny : p.Resources.any (fun res => (ParseResourceName res).Match r.resource) = false := by
    rw [List.any_eq_false]
    intro res hres
    simp [h p hp res hres]
  simp [hAny]

/-- An Allow policy whose only pattern is a different resource type. -/
def cexProjectPolicy : Permission :=
  { Name := "project-x", Alias := "", Project := "", Resources := ["project:x"],
    Actions := ["*"], Effect := "Allow" }

/-- Witness for C2: a cluster request against a single non-matching project
policy is rejected. -/
theorem claim_c2_witness : cexClusterRequest.Match [cexProjectPolicy] = false :=
  (claim_c2_fail_closed cexClusterRequest [cexProjectPolicy]).1 (by decide)

/-- C3 counterexample: the claim's first half fails on the code — the
pattern chain parsed from "project:*" does NOT match the target parsed from
"project:foo/application:bar", because the `*` sits in the value position,
so the pattern covers exactly one segment and the walk rejects the target's
remaining `application:bar` segment. -/
theorem claim_c3_counterexample :
    ¬ ((ParseResourceName "project:*").Match
        (ParseResourceName "project:foo/application:bar") = true
      ∧ (ParseResourceName "project:foo/application:bar").Match
        (ParseResourceName "project:foo") = false) := by
  intro h
  exact absurd h.1 (by decide)

/-- C3 (amended): `ResourceName.Match` is asymmetric in exactly this way:
the pattern chain parsed from "project:*/*" (whose second segment has the
wildcard type `*`) matches the target chain parsed from
"project:foo/application:bar", while the pattern chain parsed from
"project:foo/application:bar" does not match the target chain parsed from
"project:foo". -/
theorem claim_c3_amended :
    (ParseResourceName "project:*/*").Match
      (ParseResourceName "project:foo/application:bar") = true
    ∧ (ParseResourceName "project:foo/application:bar").Match
      (ParseResourceName "project:foo") = false :=
  ⟨rfl, rfl⟩

/-- C4: a policy's action set satisfies a request exactly when it is a
superset of the requested actions or contains `*`; `RequestResourceAction.match`
is the conjunction of that action test with the resource-pattern test, so a
policy failing the action test never matches.  Concretely, actions
{list, detail} permit {list} but not {list, delete}, and {*} permits any
requested action set. -/
theorem claim_c4_action_superset_rule :
    (∀ (r : RequestResourceAction) (p : Permission),
      r.rmatch p = ((goSliceIncludeSlice p.Actions r.actions || goStringsContain p.Actions "*")
        && p.Resources.any (fun res => (ParseResourceName res).Match r.resource)))
    ∧ (goSliceIncludeSlice ["list", "detail"] ["list"]
        || goStringsContain ["list", "detail"] "*") = true
    ∧ (goSliceIncludeSlice ["list", "detail"] ["list", "delete"]
        || goStringsContain ["list", "detail"] "*") = false
    ∧ (∀ actions : List String,
        (goSliceIncludeSlice ["*"] actions || goStringsContain ["*"] "*") = true) := by
  refine ⟨rmatch_eq, by decide, by decide, fun actions => ?_⟩
  simp [goStringsContain]

/-- C10: a policy whose effect folds (case-insensitively) to neither "deny"
nor "allow" and is not empty is skipped by both evaluation passes: removing
it from the list never changes the decision of `RequestResourceAction.Match`. -/
theorem claim_c10_unknown_effect_inert (r : RequestResourceAction)
    (l1 l2 : List Permission) (p : Permission)
    (hdeny : goEqualFold p.Effect "deny" = false)
    (hallow : goEqualFold p.Effect "allow" = false)
    (hempty : p.Effect ≠ "") :
    r.Match (l1 ++ p :: l2) = r.Match (l1 ++ l2) := by
  have he : (p.Effect == "") = false := by simp [hempty]
  have hd : denyPass r (l1 ++ p :: l2) = denyPass r (l1 ++ l2) := by
    simp [denyPass_eq_any, List.any_append, List.any_cons, hdeny]
  have ha : allowPass r (l1 ++ p :: l2) = allowPass r (l1 ++ l2) := by
    simp [allowPass_eq_any, List.any_append, List.any_cons, hallow, he]
  simp [RequestResourceAction.Match, hd, ha]

/-- A policy that would match everything, but with the misspelled effect
"Denied": neither a deny nor an allow. -/
def cexDeniedEffectPolicy : Permission :=
  { Name := "weird", Alias := "", Project := "", Resources := ["*"],
    Actions := ["*"], Effect := "Denied" }

/-- Witness for C10: adding the "Denied"-effect match-all policy leaves the
decision unchanged. -/
theorem claim_c10_witness :
    cexClusterRequest.Match [cexProjectPolicy, cexDeniedEffectPolicy]
      = cexClusterRequest.Match [cexProjectPolicy] :=
  claim_c10_unknown_effect_inert cexClusterRequest [cexProjectPolicy] [] cexDeniedEffectPolicy
    (by rfl) (by rfl) (by decide)

/-- The concrete path-parameter lookup of the C5 scenario. -/
def c5Lookup (name : String) : String :=
  if name == "projectName" then "p1"
  else if name == "appName" then "a1"
  else if name == "compName" then "c1" else ""

/-- C5 counterexample: `checkResourcePath "component"` does not return the
slash-delimited template the claim states — the function strips the leading
and trailing slash of the index entry before returning it. -/
theorem claim_c5_counterexample :
    checkResourcePath "component"
      ≠ Except.ok "/project:{projectName}/application:{appName}/component:{compName}/" := by
  intro h
  have he : checkResourcePath "component"
      = Except.ok "project:{projectName}/application:{appName}/component:{compName}" := rfl
  have h2 := Except.ok.inj (he.symm.trans h)
  exact absurd h2 (by decide)

/-- C5 (amended): resolving "component" yields the canonical template
"project:{projectName}/application:{appName}/component:{compName}" (without
surrounding slashes) with no error, and instantiating that template with
projectName=p1, appName=a1, compName=c1 renders as
"project:p1/application:a1/component:c1". -/
theorem claim_c5_amended :
    checkResourcePath "component"
      = Except.ok "project:{projectName}/application:{appName}/component:{compName}"
    ∧ rnString (SetResourceWithName
        "project:{projectName}/application:{appName}/component:{compName}" c5Lookup)
      = "project:p1/application:a1/component:c1" :=
  ⟨rfl, rfl⟩

/-- C7: the code contradicts the claim.  `syncUpdateCondition` is the update
gate of `SyncDefaultRoleAndUsersForProject`; with stored resources and
actions both equal to the template's, it still fires (first conjunct), and
with equal resources but different actions it does not fire (second
conjunct) — the opposite of "update exactly when something differs". -/
theorem claim_c7_code_bug :
    syncUpdateCondition
      ["project:p1/application:*/*"] ["detail", "list"]
      ["project:p1/application:*/*"] ["detail", "list"] = true
    ∧ syncUpdateCondition
      ["project:p1/application:*/*"] ["detail", "list"]
      ["project:p1/application:*/*"] ["*"] = false :=
  ⟨rfl, rfl⟩

/-- C9: every successful result of `GetUserPermissions` is some list with
the synthetic cloudshell allow permission appended exactly once, as its
last element, whatever the store contents, user, project and flag. -/
theorem claim_c9_cloudshell_appended (st : Store) (user : User) (projectName : String)
    (withPlatform : Bool) (perms : List Permission)
    (h : GetUserPermissions st user projectName withPlatform = .ok perms) :
    ∃ rest, perms = rest ++ [cloudshellPermission] := by
  unfold GetUserPermissions at h
  split at h
  · exact Except.noConfusion h
  · split at h
    · exact Except.noConfusion h
    · exact ⟨_, (Except.ok.inj h).symm⟩

/-- A store with no roles and no stored permissions. -/
def emptyStore : Store :=
  { listPlatformRoles := fun _ => .ok [],
    getProjectUser := fun _ _ => .error "record not exist",
    listProjectRoles := fun _ _ => .ok [],
    listPermissions := fun _ _ => .ok [] }

/-- A user without roles. -/
def cexUser : User := { Name := "u1", UserRoles := [] }

/-- Witness for C9: with an empty store the result is exactly the appended
cloudshell permission. -/
theorem claim_c9_witness : ∃ rest, [cloudshellPermission] = rest ++ [cloudshellPermission] :=
  claim_c9_cloudshell_appended emptyStore cexUser "" false [cloudshellPermission] rfl

theorem strData_append (a b : String) : (a ++ b).data = a.data ++ b.data := rfl

theorem strMk_data (s : String) : String.mk s.data = s := rfl

theorem goSplitChar_no_sep (sep : Char) (s : List Char) (h : sep ∉ s) :
    goSplitChar sep s = [s] := by
  induction s with
  | nil => rfl
  | cons c t ih =>
    rw [List.mem_cons, not_or] at h
    obtain ⟨h1, h2⟩ := h
    have hc : (c == sep) = false := by
      rw [beq_eq_false_iff_ne]
      exact fun hh => h1 hh.symm
    simp [goSplitChar, hc, ih h2]

theorem goSplitChar_append_sep (sep : Char) (a b : List Char) (h : sep ∉ a) :
    goSplitChar sep (a ++ sep :: b) = a :: goSplitChar sep b := by
  induction a with
  | nil => simp [goSplitChar]
  | cons c t ih =>
    rw [List.mem_cons, not_or] at h
    obtain ⟨h1, h2⟩ := h
    have hc : (c == sep) = false := by
      rw [beq_eq_false_iff_ne]
      exact fun hh => h1 hh.symm
    cases hs : goSplitChar sep (t ++ sep :: b) with
    | nil => rw [ih h2] at hs; cases hs
    | cons x xs =>
      have := ih h2
      rw [hs] at this
      obtain ⟨hx, hxs⟩ := List.cons.inj this
      simp [goSplitChar, hc, hs, hx, hxs]

/-- The char rendering of one (type, value) segment: `type:value`. -/
def tokChars (p : String × String) : List Char := p.1.data ++ ':' :: p.2.data

/-- Join char tokens with `/` separators (no trailing separator). -/
def joinSlash : List (List Char) → List Char
  | [] => []
  | [x] => x
  | x :: xs => x ++ '/' :: joinSlash xs

/-- The chars of `rnRender` over a segment list: each segment rendered with
a trailing slash. -/
def rndChars : List (String × String) → List Char
  | [] => []
  | p :: rest => tokChars p ++ '/' :: rndChars rest

theorem colon_data : (":" : String).data = [':'] := rfl

theorem slash_data : ("/" : String).data = ['/'] := rfl

theorem rnRender_data (c : ResourceName) : (rnRender c).data = rndChars (realSegs c) := by
  induction c with
  | nil => rfl
  | node t v next ih =>
    by_cases ht : (t == "") = true
    · simp [rnRender, realSegs, ht, rndChars]
    · simp only [Bool.not_eq_true] at ht
      simp [rnRender, realSegs, ht, rndChars, tokChars, strData_append, colon_data,
        slash_data, ih, List.append_assoc]

theorem rndChars_concat (x : String × String) (rest : List (String × String)) :
    rndChars (x :: rest) = joinSlash ((x :: rest).map tokChars) ++ ['/'] := by
  induction rest generalizing x with
  | nil => simp [rndChars, joinSlash]
  | cons y ys ih =>
    calc rndChars (x :: y :: ys) = tokChars x ++ '/' :: rndChars (y :: ys) := by
          simp [rndChars]
      _ = tokChars x ++ '/' :: (joinSlash ((y :: ys).map tokChars) ++ ['/']) := by rw [ih y]
      _ = (tokChars x ++ '/' :: joinSlash ((y :: ys).map tokChars)) ++ ['/'] := by simp
      _ = joinSlash ((x :: y :: ys).map tokChars) ++ ['/'] := by simp [joinSlash]

theorem goTrimSufSlash_concat (l : List Char) :
    goTrimSufSlash (String.mk (l ++ ['/'])) = String.mk l := by
  simp [goTrimSufSlash, List.getLast?_concat, List.dropLast_concat]

theorem goSplitChar_joinSlash (toks : List (List Char)) (hne : toks ≠ [])
    (h : ∀ x ∈ toks, '/' ∉ x) :
    goSplitChar '/' (joinSlash toks) = toks := by
  induction toks with
  | nil => exact absurd rfl hne
  | cons x xs ih =>
    cases xs with
    | nil =>
      simp only [joinSlash]
      exact goSplitChar_no_sep '/' x (h x (List.mem_cons_self x []))
    | cons y ys =>
      have hx : '/' ∉ x := h x (by simp)
      have hrest : ∀ z ∈ y :: ys, '/' ∉ z := fun z hz => h z (List.mem_cons_of_mem _ hz)
      calc goSplitChar '/' (joinSlash (x :: y :: ys))
          = goSplitChar '/' (x ++ '/' :: joinSlash (y :: ys)) := by simp [joinSlash]
        _ = x :: goSplitChar '/' (joinSlash (y :: ys)) := goSplitChar_append_sep _ _ _ hx
        _ = x :: (y :: ys) := by rw [ih (by simp) hrest]

theorem parseToken_tok (t v : String) (ht : ':' ∉ t.data) (hv : ':' ∉ v.data) :
    parseToken (tokChars (t, v)) = (t, v) := by
  unfold parseToken tokChars
  rw [goSplitChar_append_sep ':' t.data v.data ht, goSplitChar_no_sep ':' v.data hv]

theorem realSegs_buildChain (ps : List (String × String)) (h : ∀ p ∈ ps, p.1 ≠ "") :
    realSegs (buildChain ps) = ps := by
  induction ps with
  | nil => rfl
  | cons p rest ih =>
    obtain ⟨t, v⟩ := p
    have h1 : t ≠ "" := h (t, v) (by simp)
    have ht : (t == "") = false := by rw [beq_eq_false_iff_ne]; exact h1
    simp [buildChain, realSegs, ht, ih (fun q hq => h q (List.mem_cons_of_mem _ hq))]

theorem realSegs_fst_ne (c : ResourceName) : ∀ p ∈ realSegs c, p.1 ≠ "" := by
  induction c with
  | nil => intro p hp; cases hp
  | node t v next ih =>
    intro p hp
    unfold realSegs at hp
    split at hp
    · cases hp
    · rename_i hne
      rcases List.mem_cons.mp hp with h | h
      · subst h; simpa using hne
      · exact ih p h

theorem segs_roundtrip (segs : List (String × String))
    (hne : ∀ p ∈ segs, p.1 ≠ "")
    (hok : ∀ p ∈ segs, '/' ∉ p.1.data ∧ ':' ∉ p.1.data ∧ '/' ∉ p.2.data ∧ ':' ∉ p.2.data) :
    realSegs (ParseResourceName (goTrimSufSlash (String.mk (rndChars segs)))) = segs := by
  cases segs with
  | nil => rfl
  | cons x xs =>
    rw [rndChars_concat x xs, goTrimSufSlash_concat]
    have hmap : ∀ z ∈ (x :: xs).map tokChars, '/' ∉ z := by
      intro z hz
      rw [List.mem_map] at hz
      obtain ⟨p, hp, rfl⟩ := hz
      obtain ⟨h1, h2, h3, h4⟩ := hok p hp
      simp only [tokChars, List.mem_append, List.mem_cons]
      rintro (h | h | h)
      · exact h1 h
      · exact absurd h (by decide)
      · exact h3 h
    unfold ParseResourceName
    rw [show (String.mk (joinSlash ((x :: xs).map tokChars))).data
          = joinSlash ((x :: xs).map tokChars) from rfl]
    rw [goSplitChar_joinSlash _ (by simp) hmap, List.map_map]
    have hid : (x :: xs).map (parseToken ∘ tokChars) = (x :: xs).map id :=
      List.map_congr_left (fun p hp => by
        obtain ⟨h1, h2, h3, h4⟩ := hok p hp
        obtain ⟨t, v⟩ := p
        exact parseToken_tok t v h2 h4)
    rw [hid, List.map_id]
    exact realSegs_buildChain _ hne

/-- C6 counterexample: the round-trip fails on a chain whose segment value
contains a separator: the single segment (a, b/c) renders as "a:b/c", which
parses back as the two segments (a, b) and (c, *). -/
theorem claim_c6_counterexample :
    realSegs (ParseResourceName (rnString
        (ResourceName.node "a" "b/c" (ResourceName.node "" "" ResourceName.nil))))
      ≠ realSegs (ResourceName.node "a" "b/c" (ResourceName.node "" "" ResourceName.nil)) := by
  decide

/-- C6 (amended): for every ResourceName chain whose real segments' types
and values contain neither `/` nor `:`, parsing the rendering reproduces the
same ordered (type, value) pairs, ignoring the trailing sentinel. -/
theorem claim_c6_roundtrip (c : ResourceName)
    (hok : ∀ p ∈ realSegs c, '/' ∉ p.1.data ∧ ':' ∉ p.1.data ∧ '/' ∉ p.2.data ∧ ':' ∉ p.2.data) :
    realSegs (ParseResourceName (rnString c)) = realSegs c := by
  have hs : rnString c = goTrimSufSlash (String.mk (rndChars (realSegs c))) := by
    calc rnString c = goTrimSufSlash (String.mk (rnRender c).data) := rfl
      _ = goTrimSufSlash (String.mk (rndChars (realSegs c))) := by rw [rnRender_data]
  rw [hs]
  exact segs_roundtrip (realSegs c) (realSegs_fst_ne c) hok

/-- Witness for C6 on the chain parsed from "project:p1/application:a1":
separator-free segments round-trip. -/
theorem claim_c6_witness :
    realSegs (ParseResourceName (rnString (ParseResourceName "project:p1/application:a1")))
      = realSegs (ParseResourceName "project:p1/application:a1") :=
  claim_c6_roundtrip (ParseResourceName "project:p1/application:a1") (by decide)

theorem goIndexAux_starts (pat s : List Char) (i : Nat)
    (h : goIndexAux pat s = some i) : listStarts pat (s.drop i) = true := by
  induction s generalizing i with
  | nil =>
    unfold goIndexAux at h
    split at h
    · rename_i hs
      have h0 : i = 0 := (Option.some.inj h).symm
      subst h0
      simpa using hs
    · exact Option.noConfusion h
  | cons c t ih =>
    unfold goIndexAux at h
    split at h
    · rename_i hs
      have h0 : i = 0 := (Option.some.inj h).symm
      subst h0
      simpa using hs
    · cases hj : goIndexAux pat t with
      | none => rw [hj] at h; exact Option.noConfusion h
      | some j =>
        rw [hj] at h
        simp only [Option.map_some', Option.some.injEq] at h
        subst h
        rw [List.drop_succ_cons]
        exact ih j hj

theorem entryPreBody_ne_empty (lastResourceName erp : String) (index : Nat)
    (hi : goIndexAux ("/" ++ lastResourceName ++ ":").data erp.data = some index) :
    entryPreBody lastResourceName erp index ≠ "" := by
  have hstarts := goIndexAux_starts _ _ _ hi
  have hdata : erp.data ≠ [] := by
    intro he
    rw [he] at hstarts
    rw [show ("/" ++ lastResourceName ++ ":").data
          = '/' :: (lastResourceName ++ ":").data from rfl] at hstarts
    simp [listStarts] at hstarts
  have hpre0 : erp.data.take (index + lastResourceName.length + 2) ≠ [] := by
    intro he
    rcases List.take_eq_nil_iff.mp he with h0 | h0
    · omega
    · exact hdata h0
  unfold entryPreBody
  dsimp only
  split
  · intro he
    have hd : (String.mk (erp.data.take (index + lastResourceName.length + 2))).data
        ++ _ = ([] : List Char) := congrArg String.data he
    exact hpre0 (List.append_eq_nil.mp hd).1
  · intro he
    exact hpre0 (congrArg String.data he)

theorem entryPre_ne_empty (lastResourceName erp pre : String)
    (h : entryPre lastResourceName erp = some pre) : pre ≠ "" := by
  unfold entryPre at h
  split at h
  · exact Option.noConfusion h
  · rename_i index hi
    rw [← Option.some.inj h]
    exact entryPreBody_ne_empty lastResourceName erp index hi

theorem entryScanPre_ne_empty (resource lastResourceName : String) (kv : String × String)
    (pre : String) (h : entryScanPre resource lastResourceName kv = some pre) : pre ≠ "" := by
  unfold entryScanPre at h
  split at h
  · exact entryPre_ne_empty lastResourceName kv.2 pre h
  · exact Option.noConfusion h

/-- The `(path, exist)` state machine of the `checkResourcePath` loop,
driven by the list of computed `pre` values. -/
def presScan : String → Nat → List String → String × Nat
  | path, exist, [] => (path, exist)
  | path, exist, p :: rest => presScan p (if p != path then exist + 1 else exist) rest

theorem foldl_scanStep_eq (resource lastResourceName : String) (l : List (String × String))
    (path : String) (exist : Nat) :
    l.foldl (scanStep resource lastResourceName) (path, exist)
      = presScan path exist (l.filterMap (entryScanPre resource lastResourceName)) := by
  induction l generalizing path exist with
  | nil => rfl
  | cons kv rest ih =>
    simp only [List.foldl_cons, List.filterMap_cons]
    cases he : entryScanPre resource lastResourceName kv with
    | none =>
      simp only [scanStep, he]
      exact ih path exist
    | some pre =>
      simp only [scanStep, he, presScan]
      exact ih pre _

theorem presScan_mono (l : List String) (path : String) (exist : Nat) :
    exist ≤ (presScan path exist l).2 := by
  induction l generalizing path exist with
  | nil => exact Nat.le_refl _
  | cons p rest ih =>
    simp only [presScan]
    refine Nat.le_trans ?_ (ih p _)
    split <;> omega

theorem presScan_bump (l : List String) (path : String) (exist : Nat)
    (h : ∃ a ∈ l, a ≠ path) :
    exist + 1 ≤ (presScan path exist l).2 := by
  induction l generalizing path exist with
  | nil => obtain ⟨a, ha, _⟩ := h; cases ha
  | cons p rest ih =>
    simp only [presScan]
    split
    · exact presScan_mono rest p (exist + 1)
    · rename_i hcond
      have hp : p = path := by simpa using hcond
      subst hp
      have hr : ∃ a ∈ rest, a ≠ p := by
        obtain ⟨a, ha, hane⟩ := h
        rcases List.mem_cons.mp ha with rfl | ha2
        · exact absurd rfl hane
        · exact ⟨a, ha2, hane⟩
      exact ih p exist hr

theorem presScan_two (l : List String) (hne : ∀ a ∈ l, a ≠ "")
    (x y : String) (hx : x ∈ l) (hy : y ∈ l) (hxy : x ≠ y) :
    2 ≤ (presScan "" 0 l).2 := by
  cases l with
  | nil => cases hx
  | cons p rest =>
    simp only [presScan]
    split
    · have hr : ∃ a ∈ rest, a ≠ p := by
        by_contra hall
        push_neg at hall
        have hx2 : x = p := by
          rcases List.mem_cons.mp hx with rfl | h2
          · rfl
          · exact hall x h2
        have hy2 : y = p := by
          rcases List.mem_cons.mp hy with rfl | h2
          · rfl
          · exact hall y h2
        exact hxy (hx2.trans hy2.symm)
      exact presScan_bump rest p 1 hr
    · rename_i hcond
      have hp : p = "" := by simpa using hcond
      exact absurd hp (hne p (List.mem_cons_self p rest))

/-- C8: `checkResourcePath`'s error contract — for any resource name that is
not a direct top-level key, the loop computes one `pre` per index entry
whose key contains `/<resource>/` and whose template contains
`/<lastComponent>:`; when no entry matches the result is the "there is no
resource" error, when two entries produce distinct `pre` values the result
is the "is not unique" error; in particular "widget" yields the "there is
no resource widget" error. -/
theorem claim_c8_resolver_error_contract :
    (∀ resource : String, ResourceMaps.lookup resource = none →
      (existResourcePaths.filterMap (entryScanPre resource (goAfterLastSlash resource)) = [] →
        checkResourcePath resource = .error ("there is no resource " ++ resource))
      ∧ (∀ x ∈ existResourcePaths.filterMap (entryScanPre resource (goAfterLastSlash resource)),
         ∀ y ∈ existResourcePaths.filterMap (entryScanPre resource (goAfterLastSlash resource)),
          x ≠ y →
          checkResourcePath resource
            = .error ("the resource name " ++ resource ++ " is not unique")))
    ∧ checkResourcePath "widget" = .error "there is no resource widget" := by
  constructor
  · intro resource hlook
    have hscan : scanResourcePaths resource
        = presScan "" 0 (existResourcePaths.filterMap
            (entryScanPre resource (goAfterLastSlash resource))) :=
      foldl_scanStep_eq resource (goAfterLastSlash resource) existResourcePaths "" 0
    constructor
    · intro hnil
      have h2 : (scanResourcePaths resource).2 = 0 := by
        rw [hscan, hnil]
        rfl
      unfold checkResourcePath
      rw [hlook]
      simp [h2]
    · intro x hx y hy hxy
      have hall : ∀ a ∈ existResourcePaths.filterMap
          (entryScanPre resource (goAfterLastSlash resource)), a ≠ "" := by
        intro a ha
        rw [List.mem_filterMap] at ha
        obtain ⟨kv, hkv, hsome⟩ := ha
        exact entryScanPre_ne_empty resource (goAfterLastSlash resource) kv a hsome
      have h2 : 2 ≤ (scanResourcePaths resource).2 := by
        rw [hscan]
        exact presScan_two _ hall x y hx hy hxy
      have hne1 : ¬((scanResourcePaths resource).2 = 1) := by omega
      have hgt : (scanResourcePaths resource).2 > 1 := by omega
      unfold checkResourcePath
      rw [hlook]
      simp [hne1, hgt]
  · rfl

/-- Witness for C8: the unregistered name "widget" has no matching index
entry and yields the "does not exist" error; the nested name "workflow"
matches entries with two distinct template prefixes and yields the "not
unique" error. -/
theorem claim_c8_witness :
    checkResourcePath "widget" = .error "there is no resource widget"
    ∧ checkResourcePath "workflow" = .error "the resource name workflow is not unique" :=
  ⟨(claim_c8_resolver_error_contract.1 "widget" rfl).1 rfl,
   (claim_c8_resolver_error_contract.1 "workflow" rfl).2
     "/project:{projectName}/workflow:{workflowName}"
     (by decide)
     "/project:{projectName}/application:{appName}/workflow:{workflowName}"
     (by decide)
     (by decide)⟩
